import Mathlib

/-!
Shallow embedding of `src/library_addfunction.js` (the Emscripten
dynamic function-table manager: `uleb128Encode`, `sigToWasmTypes`,
`convertJsFunctionToWasm`, `getEmptyTableSlot`, `updateTableMap`,
`addFunction`, `removeFunction`).

Build settings modelled: `ASSERTIONS = 1` (so the `#if ASSERTIONS`
assertions are live, the `#if ASSERTIONS >= 2` table scan is not),
`MEMORY64 = 0` (the `p` tag is a 32-bit integer) and `WASM2JS = 0`
(the wasm paths of `convertJsFunctionToWasm` are live).

JS values are modelled as follows: a JS number-or-undefined is
`Option Nat` (`none` is `undefined`); a thrown value is an `Err`;
functions are the opaque identity-carrying type `Func`, where
`Func.js` is a plain JS function (rejected by `WebAssembly.Table.set`
with a `TypeError`), `Func.wasm` is a wasm function (accepted), and
`Func.wrapped f sig` is the fresh wasm function produced by
`convertJsFunctionToWasm f sig` (accepted; distinct from `f`).
The `WeakMap` `functionsInTableMap` is an association list with unique
keys; `undefined` for the not-yet-created map is the `none` of an
`Option`. The `WebAssembly.Table` is a list of nullable functions
together with its optional maximum size; `grow(1)` appends a null
entry and throws a `RangeError` when the maximum would be exceeded.
-/

/-- A JS value that is either a number or `undefined`. -/
abbrev JsNum := Option Nat

/-- Thrown JS values relevant to this module: a `TypeError` (from
`WebAssembly.Table.set` on a non-wasm function), a thrown string
(`getEmptyTableSlot` throws a plain string on growth failure), and an
Emscripten `assert` failure carrying its message. -/
inductive Err where
  | typeError : Err
  | thrownString : String → Err
  | assertionFailure : String → Err
deriving DecidableEq, Repr

/-- Opaque callables with identity. `js` functions are not wasm
functions (table `set` rejects them); `wasm` functions are;
`wrapped f sig` is the wasm function synthesized for `f` by
`convertJsFunctionToWasm`, a fresh object distinct from `f`. -/
inductive Func where
  | wasm : Nat → Func
  | js : Nat → Func
  | wrapped : Func → List Char → Func
deriving DecidableEq, Repr

/-- `uleb128Encode(n, target)` from the source: pushes the encoding of
`n` onto `target` (correct only for `n < 2^14`, which the source
asserts in debug builds; the claims only concern that range). -/
def uleb128Encode (n : Nat) (target : List JsNum) : List JsNum :=
  if n < 128 then
    target ++ [some n]
  else
    target ++ [some ((n % 128) ||| 128), some (n >>> 7)]

/-- The `typeNames` lookup object of `sigToWasmTypes` (with
`MEMORY64 = 0`, so `p` maps to `i32`); `none` is a JS `undefined`
lookup result. -/
def typeNames (c : Char) : Option String :=
  if c = 'i' then some "i32"
  else if c = 'j' then some "i64"
  else if c = 'f' then some "f32"
  else if c = 'd' then some "f64"
  else if c = 'p' then some "i32"
  else none

/-- The message of the `assert` on an invalid signature character
(the source message is the same in `sigToWasmTypes` and in
`convertJsFunctionToWasm`): it names the character but not its
position. -/
def invalidSigCharMsg (c : Char) : String :=
  "invalid signature char: " ++ String.mk [c]

/-- The structured result of `sigToWasmTypes`: wire-type names for
parameters and results. Entries are `Option String` because the
source can place a JS `undefined` (`none`) in `results` when the
first signature character is unknown. -/
structure WasmSigTypes where
  parameters : List (Option String)
  results : List (Option String)
deriving DecidableEq, Repr

/-- The parameter loop of `sigToWasmTypes` (`for i = 1; ...`): each
character is asserted to be in `typeNames` and its wire-type name is
pushed; the first invalid character aborts with the assertion. -/
def paramTypeNames : List Char → Except Err (List (Option String))
  | [] => Except.ok []
  | c :: rest =>
    match typeNames c with
    | some t =>
      match paramTypeNames rest with
      | Except.ok ps => Except.ok (some t :: ps)
      | Except.error e => Except.error e
    | none => Except.error (Err.assertionFailure (invalidSigCharMsg c))

/-- `sigToWasmTypes(sig)` from the source. The `results` field is
computed from `sig[0]` with no assertion: an unknown first character
yields `[none]` (a JS `[undefined]`); only parameter characters are
asserted. -/
def sigToWasmTypes (sig : List Char) : Except Err WasmSigTypes :=
  let results : List (Option String) :=
    match sig.head? with
    | some c => if c = 'v' then [] else [typeNames c]
    | none => [none]
  match paramTypeNames (sig.drop 1) with
  | Except.ok ps => Except.ok { parameters := ps, results := results }
  | Except.error e => Except.error e

/-- The `typeCodes` lookup object of `convertJsFunctionToWasm` (with
`MEMORY64 = 0`, so `p` maps to `0x7f`). -/
def typeCodes (c : Char) : Option Nat :=
  if c = 'i' then some 0x7f
  else if c = 'p' then some 0x7f
  else if c = 'j' then some 0x7e
  else if c = 'f' then some 0x7d
  else if c = 'd' then some 0x7c
  else none

/-- The parameter loop of `convertJsFunctionToWasm`: each signature
character is asserted to be in `typeCodes` and its one-byte type code
is pushed. -/
def paramTypeCodes : List Char → Except Err (List JsNum)
  | [] => Except.ok []
  | c :: rest =>
    match typeCodes c with
    | some t =>
      match paramTypeCodes rest with
      | Except.ok ps => Except.ok (some t :: ps)
      | Except.error e => Except.error e
    | none => Except.error (Err.assertionFailure (invalidSigCharMsg c))

/-- The byte sequence built by the fallback (no `WebAssembly.Function`)
path of `convertJsFunctionToWasm(func, sig)`, exactly as the source
assembles it before `new Uint8Array(bytes)`: type section body first
(count, form, ULEB parameter count, parameter codes, result arity and
code), then magic, version, type section code and length, the body,
and the fixed import and export sections. The result-position lookup
`typeCodes[sigRet]` is unasserted, so an unknown result character
places a JS `undefined` (`none`) in the array. -/
def convertJsFunctionToWasmBytes (sig : List Char) : Except Err (List JsNum) :=
  let sigRet := sig.take 1
  let sigParam := sig.drop 1
  match paramTypeCodes sigParam with
  | Except.error e => Except.error e
  | Except.ok pcs =>
    let typeSectionBody : List JsNum :=
      uleb128Encode sigParam.length [some 0x01, some 0x60] ++ pcs
    let typeSectionBody := typeSectionBody ++
      (if sigRet = ['v'] then [some 0x00]
       else [some 0x01, sig.head?.bind typeCodes])
    let bytes : List JsNum :=
      [some 0x00, some 0x61, some 0x73, some 0x6d,
       some 0x01, some 0x00, some 0x00, some 0x00,
       some 0x01]
    let bytes := uleb128Encode typeSectionBody.length bytes ++ typeSectionBody
    let bytes := bytes ++
      [some 0x02, some 0x07,
       some 0x01, some 0x01, some 0x65, some 0x01, some 0x66, some 0x00, some 0x00,
       some 0x07, some 0x05,
       some 0x01, some 0x01, some 0x66, some 0x00, some 0x00]
    Except.ok bytes

/-- `convertJsFunctionToWasm(func, sig)` at the level of callables:
both host paths (the `WebAssembly.Function` constructor and the
synthesized module) assert exactly the parameter characters of `sig`
and produce a fresh wasm function wrapping `func`; the wrapper is
modelled by the `Func.wrapped` constructor. -/
def convertJsFunctionToWasmF (func : Func) (sig : List Char) : Except Err Func :=
  match (sig.drop 1).find? (fun c => (typeCodes c).isNone) with
  | some c => Except.error (Err.assertionFailure (invalidSigCharMsg c))
  | none => Except.ok (Func.wrapped func sig)

/-- Association list with unique keys modelling the `WeakMap`
`functionsInTableMap`: `get`. -/
def mapGet : List (Func × Nat) → Func → Option Nat
  | [], _ => none
  | (k, v) :: rest, f => if k = f then some v else mapGet rest f

/-- `WeakMap.set`: replace the binding of the key if present,
otherwise append a new binding. -/
def mapSet : List (Func × Nat) → Func → Nat → List (Func × Nat)
  | [], f, v => [(f, v)]
  | (k, w) :: rest, f, v =>
    if k = f then (f, v) :: rest else (k, w) :: mapSet rest f v

/-- `WeakMap.delete`: remove the binding of the key if present (keys
are unique, so removing the first occurrence suffices); deleting an
absent key is a no-op, as in JS. -/
def mapDelete : List (Func × Nat) → Func → List (Func × Nat)
  | [], _ => []
  | (k, w) :: rest, f =>
    if k = f then rest else (k, w) :: mapDelete rest f

/-- The mutable state of the module: the `WebAssembly.Table`
(`wasmTable`, a list of nullable functions plus its optional declared
maximum), the `freeTableIndexes` array, and the lazily created
`functionsInTableMap` (`none` while still `undefined`). -/
structure St where
  table : List (Option Func)
  tableMaximum : Option Nat
  freeTableIndexes : List Nat
  functionsInTableMap : Option (List (Func × Nat))
deriving DecidableEq, Repr

/-- `getWasmTableEntry(i)`: read the table entry at `i` (`none` is the
null entry). -/
def getWasmTableEntry (st : St) (i : Nat) : Option Func :=
  st.table.getD i none

/-- `setWasmTableEntry(i, f)` (`wasmTable.set`): throws a `TypeError`
when `f` is a plain JS function, otherwise stores it; the table is
unchanged when the call throws. -/
def setWasmTableEntry (st : St) (i : Nat) (f : Func) : Except Err St :=
  match f with
  | Func.js _ => Except.error Err.typeError
  | _ => Except.ok { st with table := st.table.set i (some f) }

/-- Whether `wasmTable.grow(1)` succeeds: it throws a `RangeError`
exactly when the declared maximum would be exceeded. -/
def growOk (st : St) : Bool :=
  match st.tableMaximum with
  | none => true
  | some mx => decide (st.table.length + 1 ≤ mx)

/-- The string thrown by `getEmptyTableSlot` when table growth fails:
a resource-exhaustion message with remediation guidance, replacing
the underlying `RangeError`. -/
def growErrorMessage : String :=
  "Unable to grow wasm table. Set ALLOW_TABLE_GROWTH."

/-- `getEmptyTableSlot()` from the source: pop a free index if any
(JS `Array.pop` takes the last element), otherwise grow the table by
one (appending a null entry) and return the new highest index; on
growth failure throw the guidance string. -/
def getEmptyTableSlot (st : St) : Except Err (Nat × St) :=
  match st.freeTableIndexes.getLast? with
  | some k =>
    Except.ok (k, { st with freeTableIndexes := st.freeTableIndexes.dropLast })
  | none =>
    if growOk st then
      let st' := { st with table := st.table ++ [none] }
      Except.ok (st'.table.length - 1, st')
    else
      Except.error (Err.thrownString growErrorMessage)

/-- `updateTableMap(offset, count)` from the source: record every
non-null table entry in `[offset, offset + count)` in the map, keyed
by the entry itself. It only reads the table. -/
def updateTableMap (st : St) (m : List (Func × Nat)) (offset count : Nat) :
    List (Func × Nat) :=
  (List.range count).foldl
    (fun acc j =>
      match getWasmTableEntry st (offset + j) with
      | some item => mapSet acc item (offset + j)
      | none => acc)
    m

/-- The map `addFunction` works with after its lazy-initialization
step: the existing `functionsInTableMap` if created, otherwise a new
map populated by `updateTableMap(0, wasmTable.length)`. -/
def effectiveMap (st : St) : List (Func × Nat) :=
  match st.functionsInTableMap with
  | some m => m
  | none => updateTableMap st [] 0 st.table.length

/-- The message of the `assert` that fires when a plain JS function is
added without a signature (the source appends the stringified
function to this text). -/
def missingSigMessage : String :=
  "Missing signature argument to addFunction"

/-- `addFunction(func, sig)` from the source, with `ASSERTIONS = 1`:
lazily create and fill `functionsInTableMap`; return the recorded
slot if `func` is already recorded; otherwise acquire a slot with
`getEmptyTableSlot`, try `setWasmTableEntry` directly, and on a
`TypeError` (plain JS function) assert that a signature was given,
wrap the function with `convertJsFunctionToWasm`, and store the
wrapper; finally record `func ↦ slot` and return the slot. The state
is returned alongside the result so mutations before a throw persist,
as in JS. -/
def addFunction (st : St) (func : Func) (sig : Option (List Char)) :
    Except Err Nat × St :=
  let m := effectiveMap st
  let st0 := { st with functionsInTableMap := some m }
  match mapGet m func with
  | some r => (Except.ok r, st0)
  | none =>
    match getEmptyTableSlot st0 with
    | Except.error e => (Except.error e, st0)
    | Except.ok (ret, st1) =>
      match setWasmTableEntry st1 ret func with
      | Except.ok st2 =>
        (Except.ok ret, { st2 with functionsInTableMap := some (mapSet m func ret) })
      | Except.error Err.typeError =>
        match sig with
        | none => (Except.error (Err.assertionFailure missingSigMessage), st1)
        | some s =>
          match convertJsFunctionToWasmF func s with
          | Except.error e => (Except.error e, st1)
          | Except.ok w =>
            match setWasmTableEntry st1 ret w with
            | Except.ok st2 =>
              (Except.ok ret, { st2 with functionsInTableMap := some (mapSet m func ret) })
            | Except.error e => (Except.error e, st1)
      | Except.error e => (Except.error e, st1)

/-- `removeFunction(index)` from the source: delete from
`functionsInTableMap` the key that is the TABLE ENTRY at `index`
(deleting a null entry or a key not in the map is a no-op), then push
`index` onto `freeTableIndexes`. The table entry itself is not
cleared. Calling it before any `addFunction` dereferences the
`undefined` map, a `TypeError`. -/
def removeFunction (st : St) (index : Nat) : Except Err St :=
  match st.functionsInTableMap with
  | none => Except.error Err.typeError
  | some m =>
    let m' :=
      match getWasmTableEntry st index with
      | some f => mapDelete m f
      | none => m
    Except.ok { st with
      functionsInTableMap := some m',
      freeTableIndexes := st.freeTableIndexes ++ [index] }

/-- Validity of one signature tag character (membership in the
`typeNames` and `typeCodes` lookup objects, which have the same
domain). -/
def validSigChar (c : Char) : Bool :=
  (typeNames c).isSome

/-- A valid signature string: non-empty, the first character is the
void sentinel or a defined tag, and every remaining character is a
defined tag. -/
def validSig (sig : List Char) : Bool :=
  match sig with
  | [] => false
  | r :: ps => (r = 'v' || validSigChar r) && ps.all validSigChar

/-- The canonical unsigned LEB128 encoding (following the spec and
claim wording): 7 bits per byte, least-significant group first, with
the continuation bit (bit 7) set on every byte except the last. -/
def ulebSpec (n : Nat) : List Nat :=
  if n < 128 then [n]
  else ((n % 128) ||| 128) :: ulebSpec (n / 128)
termination_by n
decreasing_by exact Nat.div_lt_self (by omega) (by omega)

theorem ulebSpec_small (n : Nat) (h : n < 128) : ulebSpec n = [n] := by
  rw [ulebSpec, if_pos h]

theorem ulebSpec_two (n : Nat) (h1 : 128 ≤ n) (h2 : n < 16384) :
    ulebSpec n = [(n % 128) ||| 128, n / 128] := by
  have hd : n / 128 < 128 := (Nat.div_lt_iff_lt_mul (by norm_num)).mpr h2
  rw [ulebSpec, if_neg (by omega), ulebSpec_small _ hd]

theorem ulebSpec_length (n : Nat) (h : n < 16384) : (ulebSpec n).length ≤ 2 := by
  by_cases h1 : n < 128
  · rw [ulebSpec_small n h1]; simp
  · rw [ulebSpec_two n (by omega) h]; simp

/-- Agreement of the source encoder with the canonical encoding on the
contract domain `n < 2^14`. -/
theorem uleb128Encode_eq_spec (n : Nat) (h : n < 16384) (t : List JsNum) :
    uleb128Encode n t = t ++ (ulebSpec n).map some := by
  by_cases h1 : n < 128
  · rw [uleb128Encode, if_pos h1, ulebSpec_small n h1]; rfl
  · rw [uleb128Encode, if_neg h1, ulebSpec_two n (by omega) h]
    have hs : n >>> 7 = n / 128 := by
      rw [Nat.shiftRight_eq_div_pow]
    rw [hs]; rfl

/-- C7: `uleb128Encode(n, target)` appends to `target`, for
`n = 0, 1, 127, 128, 129, 16383`, exactly `[0]`, `[1]`, `[127]`,
`[0x80, 1]`, `[0x81, 1]`, `[0xFF, 0x7F]`, and for every `n < 2^14`
it appends the 7-bits-per-byte, least-significant-group-first
encoding with the continuation bit set on every byte but the last
(`ulebSpec`), with no other effect. -/
theorem uleb128Encode_correct :
    (∀ t, uleb128Encode 0 t = t ++ [some 0]) ∧
    (∀ t, uleb128Encode 1 t = t ++ [some 1]) ∧
    (∀ t, uleb128Encode 127 t = t ++ [some 127]) ∧
    (∀ t, uleb128Encode 128 t = t ++ [some 0x80, some 1]) ∧
    (∀ t, uleb128Encode 129 t = t ++ [some 0x81, some 1]) ∧
    (∀ t, uleb128Encode 16383 t = t ++ [some 0xFF, some 0x7F]) ∧
    (∀ n, n < 16384 → ∀ t, uleb128Encode n t = t ++ (ulebSpec n).map some) := by
  refine ⟨?_, ?_, ?_, ?_, ?_, ?_, ?_⟩
  · intro t; rw [uleb128Encode, if_pos (by norm_num)]
  · intro t; rw [uleb128Encode, if_pos (by norm_num)]
  · intro t; rw [uleb128Encode, if_pos (by norm_num)]
  · intro t; rw [uleb128Encode, if_neg (by norm_num)]
    exact congrArg (t ++ ·) (by decide)
  · intro t; rw [uleb128Encode, if_neg (by norm_num)]
    exact congrArg (t ++ ·) (by decide)
  · intro t; rw [uleb128Encode, if_neg (by norm_num)]
    exact congrArg (t ++ ·) (by decide)
  · exact fun n h t => uleb128Encode_eq_spec n h t

/-- Witness for C7 at the concrete input `n = 300`. -/
theorem uleb128Encode_correct_witness :
    uleb128Encode 300 [] = [] ++ (ulebSpec 300).map some :=
  uleb128Encode_correct.2.2.2.2.2.2 300 (by norm_num) []

theorem paramTypeNames_valid (ps : List Char) (h : ps.all validSigChar = true) :
    paramTypeNames ps = Except.ok (ps.map typeNames) := by
  induction ps with
  | nil => rfl
  | cons c rest ih =>
    rw [List.all_cons, Bool.and_eq_true] at h
    obtain ⟨hc, hrest⟩ := h
    rw [paramTypeNames]
    rcases ht : typeNames c with _ | t
    · rw [validSigChar, ht] at hc; simp at hc
    · rw [ih hrest]
      simp [List.map_cons, ht]

/-- C8: signature translation of `"vii"` yields parameters
`[i32, i32]` and results `[]`; of `"ifd"` yields parameters
`[f32, f64]` and results `[i32]`; and for every valid signature the
parameters are the wire types of the characters after the first, in
order, while the results are empty iff the first character is `'v'`
and otherwise a single element. -/
theorem sigToWasmTypes_wire_types :
    (sigToWasmTypes ['v', 'i', 'i'] =
      Except.ok { parameters := [some "i32", some "i32"], results := [] }) ∧
    (sigToWasmTypes ['i', 'f', 'd'] =
      Except.ok { parameters := [some "f32", some "f64"], results := [some "i32"] }) ∧
    (∀ sig, validSig sig = true →
      ∃ res, sigToWasmTypes sig =
          Except.ok { parameters := (sig.drop 1).map typeNames, results := res } ∧
        (res = [] ↔ sig.head? = some 'v') ∧
        (sig.head? ≠ some 'v' → res.length = 1)) := by
  refine ⟨by rfl, by rfl, ?_⟩
  intro sig hv
  match sig with
  | [] => simp [validSig] at hv
  | r :: ps =>
    rw [validSig, Bool.and_eq_true] at hv
    obtain ⟨_, hps⟩ := hv
    refine ⟨if r = 'v' then [] else [typeNames r], ?_, ?_, ?_⟩
    · rw [sigToWasmTypes]
      simp only [List.drop_succ_cons, List.drop_zero, List.head?_cons]
      rw [paramTypeNames_valid ps hps]
    · by_cases hr : r = 'v' <;> simp [hr]
    · intro hne
      have hr : r ≠ 'v' := by simpa using hne
      simp [hr]

/-- Witness for C8 at the concrete valid signature `"vp"`. -/
theorem sigToWasmTypes_wire_types_witness :
    ∃ res, sigToWasmTypes ['v', 'p'] =
        Except.ok { parameters := (['v', 'p'].drop 1).map typeNames, results := res } ∧
      (res = [] ↔ ['v', 'p'].head? = some 'v') ∧
      (['v', 'p'].head? ≠ some 'v' → res.length = 1) :=
  sigToWasmTypes_wire_types.2.2 ['v', 'p'] (by decide)

/-- Counterexample for C5: for the signature `"x"`, whose single
(result-position) character is outside the tag set, `sigToWasmTypes`
signals no error and silently yields a JS `undefined` results entry;
moreover for `"ix"` the signalled error message names the offending
character but not its position. -/
theorem sigToWasmTypes_silent_result_undefined :
    sigToWasmTypes ['x'] =
      Except.ok { parameters := [], results := [none] } ∧
    sigToWasmTypes ['i', 'x'] =
      Except.error (Err.assertionFailure "invalid signature char: x") := by
  constructor
  · rfl
  · rfl

theorem paramTypeNames_first_invalid (ps : List Char) (c : Char)
    (h : ps.find? (fun x => ! validSigChar x) = some c) :
    paramTypeNames ps = Except.error (Err.assertionFailure (invalidSigCharMsg c)) := by
  induction ps with
  | nil => simp [List.find?] at h
  | cons d rest ih =>
    rw [List.find?] at h
    by_cases hd : validSigChar d
    · rw [hd] at h
      simp only [Bool.not_true] at h
      rcases ht : typeNames d with _ | t
      · rw [validSigChar, ht] at hd; simp at hd
      · rw [paramTypeNames, ht, ih h]
    · have hd' : validSigChar d = false := by simpa using hd
      rw [hd'] at h
      simp only [Bool.not_false, Option.some.injEq] at h
      rw [← h]
      rcases ht : typeNames d with _ | t
      · rw [paramTypeNames, ht]
      · rw [validSigChar, ht] at hd'; simp at hd'

/-- C5 (amended): only parameter positions are checked. If the
parameter region (positions `≥ 1`) contains a character outside the
tag set, translation fails with an assertion naming the first such
character (the message does not include its position); an invalid
character at the result (first) position is not flagged and is
silently mapped to a JS `undefined` results entry. -/
theorem sigToWasmTypes_invalid_handling :
    (∀ sig c, (sig.drop 1).find? (fun x => ! validSigChar x) = some c →
      sigToWasmTypes sig =
        Except.error (Err.assertionFailure (invalidSigCharMsg c))) ∧
    (∀ sig c, sig.head? = some c → c ≠ 'v' → validSigChar c = false →
      (sig.drop 1).all validSigChar = true →
      sigToWasmTypes sig =
        Except.ok { parameters := (sig.drop 1).map typeNames, results := [none] }) := by
  constructor
  · intro sig c h
    rw [sigToWasmTypes, paramTypeNames_first_invalid _ _ h]
  · intro sig c hhead hcv hcbad hall
    rw [sigToWasmTypes, paramTypeNames_valid _ hall, hhead]
    have ht : typeNames c = none := by
      rw [validSigChar] at hcbad
      exact Option.not_isSome_iff_eq_none.mp (by simp [hcbad])
    simp [hcv, ht]

/-- Witness for C5 (amended) at the concrete inputs `"vxi"` (invalid
parameter character) and `"x"` (invalid result character). -/
theorem sigToWasmTypes_invalid_handling_witness :
    sigToWasmTypes ['v', 'x', 'i'] =
      Except.error (Err.assertionFailure (invalidSigCharMsg 'x')) ∧
    sigToWasmTypes ['x'] =
      Except.ok { parameters := (['x'].drop 1).map typeNames, results := [none] } :=
  ⟨sigToWasmTypes_invalid_handling.1 ['v', 'x', 'i'] 'x' (by decide),
   sigToWasmTypes_invalid_handling.2 ['x'] 'x' (by decide) (by decide) (by decide) (by decide)⟩

/-- The wire-format type code table as the spec states it: 32-bit
integer `0x7F`, 64-bit integer `0x7E`, 32-bit float `0x7D`, 64-bit
float `0x7C`, with the address-width tag `p` mapped to the configured
(here 32-bit) integer code. -/
def specTypeCode (c : Char) : Nat :=
  if c = 'i' then 0x7f
  else if c = 'j' then 0x7e
  else if c = 'f' then 0x7d
  else if c = 'd' then 0x7c
  else if c = 'p' then 0x7f
  else 0

/-- The synthesized module wire format exactly as the claim states it:
magic, version, type section code `01` with ULEB128 length prefix,
body = count `01`, form `60`, ULEB128 parameter count, one type code
per parameter, then `00` for a void result or `01` followed by one
result type code, then the fixed import-section bytes
`02 07 01 01 65 01 66 00 00` and export-section bytes
`07 05 01 01 66 00 00`. -/
def moduleBytesSpec (sig : List Char) : List Nat :=
  let params := (sig.drop 1).map specTypeCode
  let retPart :=
    if sig.headD 'v' = 'v' then [0x00]
    else [0x01, specTypeCode (sig.headD 'v')]
  let body := [0x01, 0x60] ++ ulebSpec params.length ++ params ++ retPart
  [0x00, 0x61, 0x73, 0x6d, 0x01, 0x00, 0x00, 0x00, 0x01]
    ++ ulebSpec body.length ++ body
    ++ [0x02, 0x07, 0x01, 0x01, 0x65, 0x01, 0x66, 0x00, 0x00,
        0x07, 0x05, 0x01, 0x01, 0x66, 0x00, 0x00]

theorem typeCodes_of_valid (c : Char) (h : validSigChar c = true) :
    typeCodes c = some (specTypeCode c) := by
  by_cases h1 : c = 'i'
  · subst h1; rfl
  by_cases h2 : c = 'j'
  · subst h2; rfl
  by_cases h3 : c = 'f'
  · subst h3; rfl
  by_cases h4 : c = 'd'
  · subst h4; rfl
  by_cases h5 : c = 'p'
  · subst h5; rfl
  rw [validSigChar, typeNames] at h
  rw [if_neg h1, if_neg h2, if_neg h3, if_neg h4, if_neg h5] at h
  simp at h

theorem paramTypeCodes_valid (ps : List Char) (h : ps.all validSigChar = true) :
    paramTypeCodes ps = Except.ok (ps.map (fun c => some (specTypeCode c))) := by
  induction ps with
  | nil => rfl
  | cons c rest ih =>
    rw [List.all_cons, Bool.and_eq_true] at h
    obtain ⟨hc, hrest⟩ := h
    rw [paramTypeCodes, typeCodes_of_valid c hc, ih hrest]
    simp

/-- C6: on the fallback (no host reflection) path, for every valid
signature (within the encoder's documented `2^14` contract), the
synthesized module byte sequence is exactly the layout of
`moduleBytesSpec`: magic `00 61 73 6D`, version `01 00 00 00`, type
section `01` with ULEB128 length prefix, body = count `01`, form
`60`, ULEB128 parameter count, one type code per parameter, `00` for
void or `01` plus one result code, then the fixed import and export
sections. -/
theorem convertJsFunctionToWasm_module_bytes (sig : List Char)
    (hv : validSig sig = true) (hlen : sig.length ≤ 16000) :
    convertJsFunctionToWasmBytes sig = Except.ok ((moduleBytesSpec sig).map some) := by
  match sig with
  | [] => rw [validSig] at hv; exact absurd hv (by simp)
  | r :: ps =>
    rw [validSig, Bool.and_eq_true] at hv
    obtain ⟨hr, hps⟩ := hv
    have hplen : ps.length < 16384 := by
      have h' := hlen
      simp only [List.length_cons] at h'
      omega
    have hret :
        (if ([r] : List Char) = ['v'] then [some (0x00 : Nat)]
         else [some 0x01, (r :: ps).head?.bind typeCodes]) =
        List.map some (if (r :: ps).headD 'v' = 'v' then [(0x00 : Nat)]
         else [0x01, specTypeCode ((r :: ps).headD 'v')]) := by
      by_cases hrv : r = 'v'
      · simp [hrv]
      · have hvr : validSigChar r = true := by
          simp only [Bool.or_eq_true, decide_eq_true_eq] at hr
          exact hr.resolve_left hrv
        simp [hrv, typeCodes_of_valid r hvr]
    have hbody :
        uleb128Encode ps.length [some 0x01, some 0x60] ++
            List.map (fun c => some (specTypeCode c)) ps ++
            (if ([r] : List Char) = ['v'] then [some (0x00 : Nat)]
             else [some 0x01, (r :: ps).head?.bind typeCodes]) =
        List.map some ([0x01, 0x60] ++ ulebSpec ((ps.map specTypeCode).length) ++
            ps.map specTypeCode ++
            (if (r :: ps).headD 'v' = 'v' then [(0x00 : Nat)]
             else [0x01, specTypeCode ((r :: ps).headD 'v')])) := by
      rw [uleb128Encode_eq_spec ps.length hplen, hret]
      simp [List.map_map, Function.comp]
    have hbodylen :
        ([0x01, 0x60] ++ ulebSpec ((ps.map specTypeCode).length) ++
            ps.map specTypeCode ++
            (if (r :: ps).headD 'v' = 'v' then [(0x00 : Nat)]
             else [0x01, specTypeCode ((r :: ps).headD 'v')])).length < 16384 := by
      have h1 : (ulebSpec ps.length).length ≤ 2 := ulebSpec_length ps.length hplen
      have h2 : (if (r :: ps).headD 'v' = 'v' then [(0x00 : Nat)]
          else [0x01, specTypeCode ((r :: ps).headD 'v')]).length ≤ 2 := by
        by_cases hrv : (r :: ps).headD 'v' = 'v'
        · rw [if_pos hrv]; simp
        · rw [if_neg hrv]; simp
      have hps16 : ps.length ≤ 15999 := by
        simp only [List.length_cons] at hlen
        omega
      simp only [List.length_append, List.length_map, List.length_cons,
        List.length_nil]
      omega
    rw [convertJsFunctionToWasmBytes]
    simp only [List.take_succ_cons, List.take_zero, List.drop_succ_cons, List.drop_zero]
    rw [paramTypeCodes_valid ps hps]
    simp only []
    rw [hbody, List.length_map, uleb128Encode_eq_spec _ hbodylen]
    rw [moduleBytesSpec]
    simp only [List.drop_succ_cons, List.drop_zero]
    simp [List.map_append, List.append_assoc]

/-- Witness for C6 at the concrete signature `"ifd"`. -/
theorem convertJsFunctionToWasm_module_bytes_witness :
    convertJsFunctionToWasmBytes ['i', 'f', 'd'] =
      Except.ok ((moduleBytesSpec ['i', 'f', 'd']).map some) :=
  convertJsFunctionToWasm_module_bytes ['i', 'f', 'd'] (by rfl) (by norm_num)

theorem mapGet_mapSet_self (m : List (Func × Nat)) (f : Func) (v : Nat) :
    mapGet (mapSet m f v) f = some v := by
  induction m with
  | nil => simp [mapSet, mapGet]
  | cons p rest ih =>
    obtain ⟨k, w⟩ := p
    rw [mapSet]
    by_cases hk : k = f
    · rw [if_pos hk, mapGet, if_pos rfl]
    · rw [if_neg hk, mapGet, if_neg hk, ih]

theorem St_eta_map (st : St) (m : List (Func × Nat))
    (h : st.functionsInTableMap = some m) :
    { st with functionsInTableMap := some m } = st := by
  cases st
  simp only at h
  rw [h]

theorem effectiveMap_of_some (st : St) (m : List (Func × Nat))
    (h : st.functionsInTableMap = some m) : effectiveMap st = m := by
  rw [effectiveMap, h]

theorem getEmptyTableSlot_fail (st : St) (mx : Nat)
    (hfree : st.freeTableIndexes = [])
    (hmax : st.tableMaximum = some mx)
    (hfull : mx < st.table.length + 1) :
    getEmptyTableSlot st = Except.error (Err.thrownString growErrorMessage) := by
  have hg : growOk st = false := by
    rw [growOk, hmax]
    simp only [decide_eq_false_iff_not]
    omega
  rw [getEmptyTableSlot, hfree]
  simp [hg]

/-- C4: with the FreeList empty and the Table at its maximum,
`addFunction` for an unrecorded callable fails with the thrown
guidance string (a resource-exhaustion message telling the caller to
enable table growth, not the bare `RangeError`), and the entire state
— in particular the FreeList and the Registry — is left unmodified. -/
theorem addFunction_grow_failure (st : St) (f : Func) (sig : Option (List Char))
    (m : List (Func × Nat)) (mx : Nat)
    (hmap : st.functionsInTableMap = some m)
    (hmiss : mapGet m f = none)
    (hfree : st.freeTableIndexes = [])
    (hmax : st.tableMaximum = some mx)
    (hfull : mx < st.table.length + 1) :
    addFunction st f sig = (Except.error (Err.thrownString growErrorMessage), st) := by
  have hst0 : { st with functionsInTableMap := some m } = st := St_eta_map st m hmap
  rw [addFunction]
  simp only [effectiveMap_of_some st m hmap, hst0, hmiss]
  rw [getEmptyTableSlot_fail st mx hfree hmax hfull]

/-- Witness for C4: a one-entry table with maximum 1, an empty
FreeList, and an unrecorded second function. -/
theorem addFunction_grow_failure_witness :
    addFunction
      { table := [some (Func.wasm 1)], tableMaximum := some 1,
        freeTableIndexes := [], functionsInTableMap := some [(Func.wasm 1, 0)] }
      (Func.wasm 2) none =
      (Except.error (Err.thrownString growErrorMessage),
       { table := [some (Func.wasm 1)], tableMaximum := some 1,
         freeTableIndexes := [], functionsInTableMap := some [(Func.wasm 1, 0)] }) :=
  addFunction_grow_failure _ (Func.wasm 2) none [(Func.wasm 1, 0)] 1
    rfl (by decide) rfl rfl (by decide)

/-- C1 (failing-input demonstration): register the plain JS function
`Func.js 1` with signature `"v"`; the trampoline `Func.wrapped` lands
in the table at slot 0 while the registry records the original
callable. `removeFunction 0` then deletes the table entry (the
wrapper) from the registry — which is not a key — so the registry
entry whose recorded slot is 0 survives; the slot is pushed onto the
FreeList and the table entry is left in place. -/
theorem removeFunction_trampoline_stale :
    addFunction
        { table := [], tableMaximum := none, freeTableIndexes := [],
          functionsInTableMap := none } (Func.js 1) (some ['v']) =
      (Except.ok 0,
       { table := [some (Func.wrapped (Func.js 1) ['v'])], tableMaximum := none,
         freeTableIndexes := [], functionsInTableMap := some [(Func.js 1, 0)] }) ∧
    removeFunction
        { table := [some (Func.wrapped (Func.js 1) ['v'])], tableMaximum := none,
          freeTableIndexes := [], functionsInTableMap := some [(Func.js 1, 0)] } 0 =
      Except.ok
        { table := [some (Func.wrapped (Func.js 1) ['v'])], tableMaximum := none,
          freeTableIndexes := [0], functionsInTableMap := some [(Func.js 1, 0)] } :=
  ⟨rfl, rfl⟩

/-- C9 (failing-input demonstration): after registering the JS
function `Func.js 1` (via a trampoline, slot 0), unregistering slot 0
and registering the fresh wasm function `Func.wasm 2` (which reuses
slot 0), a repeat registration of `Func.js 1` returns the stale slot
0 from the surviving registry entry: two simultaneously-live
registrations now hold slot 0, whose table entry is `Func.wasm 2`. -/
theorem addFunction_stale_slot_collision :
    addFunction
        { table := [], tableMaximum := none, freeTableIndexes := [],
          functionsInTableMap := none } (Func.js 1) (some ['v']) =
      (Except.ok 0,
       { table := [some (Func.wrapped (Func.js 1) ['v'])], tableMaximum := none,
         freeTableIndexes := [], functionsInTableMap := some [(Func.js 1, 0)] }) ∧
    removeFunction
        { table := [some (Func.wrapped (Func.js 1) ['v'])], tableMaximum := none,
          freeTableIndexes := [], functionsInTableMap := some [(Func.js 1, 0)] } 0 =
      Except.ok
        { table := [some (Func.wrapped (Func.js 1) ['v'])], tableMaximum := none,
          freeTableIndexes := [0], functionsInTableMap := some [(Func.js 1, 0)] } ∧
    addFunction
        { table := [some (Func.wrapped (Func.js 1) ['v'])], tableMaximum := none,
          freeTableIndexes := [0], functionsInTableMap := some [(Func.js 1, 0)] }
        (Func.wasm 2) none =
      (Except.ok 0,
       { table := [some (Func.wasm 2)], tableMaximum := none,
         freeTableIndexes := [],
         functionsInTableMap := some [(Func.js 1, 0), (Func.wasm 2, 0)] }) ∧
    addFunction
        { table := [some (Func.wasm 2)], tableMaximum := none,
          freeTableIndexes := [],
          functionsInTableMap := some [(Func.js 1, 0), (Func.wasm 2, 0)] }
        (Func.js 1) (some ['v']) =
      (Except.ok 0,
       { table := [some (Func.wasm 2)], tableMaximum := none,
         freeTableIndexes := [],
         functionsInTableMap := some [(Func.js 1, 0), (Func.wasm 2, 0)] }) ∧
    getWasmTableEntry
      { table := [some (Func.wasm 2)], tableMaximum := none,
        freeTableIndexes := [],
        functionsInTableMap := some [(Func.js 1, 0), (Func.wasm 2, 0)] } 0 =
      some (Func.wasm 2) :=
  ⟨rfl, rfl, rfl, rfl, rfl⟩

theorem addFunction_ok_map (st : St) (f : Func) (sig : Option (List Char))
    (r : Nat) (st' : St) (h : addFunction st f sig = (Except.ok r, st')) :
    ∃ m', st'.functionsInTableMap = some m' ∧ mapGet m' f = some r := by
  simp only [addFunction] at h
  split at h
  next r0 hg =>
    rw [Prod.mk.injEq, Except.ok.injEq] at h
    obtain ⟨hr, hst⟩ := h
    subst hr
    exact ⟨effectiveMap st, by rw [← hst], hg⟩
  next hg =>
    split at h
    next => simp at h
    next =>
      split at h
      next =>
        rw [Prod.mk.injEq, Except.ok.injEq] at h
        obtain ⟨hr, hst⟩ := h
        subst hr
        exact ⟨_, by rw [← hst], mapGet_mapSet_self (effectiveMap st) f _⟩
      next =>
        split at h
        next => simp at h
        next =>
          split at h
          next => simp at h
          next =>
            split at h
            next =>
              rw [Prod.mk.injEq, Except.ok.injEq] at h
              obtain ⟨hr, hst⟩ := h
              subst hr
              exact ⟨_, by rw [← hst], mapGet_mapSet_self (effectiveMap st) f _⟩
            next => simp at h
      next => simp at h

theorem addFunction_cached (st : St) (f : Func) (sig : Option (List Char))
    (m : List (Func × Nat)) (r : Nat)
    (hmap : st.functionsInTableMap = some m) (hget : mapGet m f = some r) :
    addFunction st f sig = (Except.ok r, st) := by
  rw [addFunction]
  simp only [effectiveMap_of_some st m hmap, hget, St_eta_map st m hmap]

/-- C2: registering the same callable twice with the same valid
signature and no intervening unregister returns the same slot both
times and the second call changes nothing at all — in particular it
performs no table mutation, so the table entry at the slot is exactly
as the first call left it. -/
theorem addFunction_idempotent (st : St) (f : Func) (s : List Char)
    (hv : validSig s = true) (r : Nat) (st₁ : St)
    (h : addFunction st f (some s) = (Except.ok r, st₁)) :
    addFunction st₁ f (some s) = (Except.ok r, st₁) := by
  obtain ⟨m', hmap, hget⟩ := addFunction_ok_map st f (some s) r st₁ h
  exact addFunction_cached st₁ f (some s) m' r hmap hget

/-- Witness for C2: the wasm function `Func.wasm 7` registered twice
with signature `"v"` starting from the empty state. -/
theorem addFunction_idempotent_witness :
    addFunction
        { table := [some (Func.wasm 7)], tableMaximum := none,
          freeTableIndexes := [], functionsInTableMap := some [(Func.wasm 7, 0)] }
        (Func.wasm 7) (some ['v']) =
      (Except.ok 0,
       { table := [some (Func.wasm 7)], tableMaximum := none,
         freeTableIndexes := [], functionsInTableMap := some [(Func.wasm 7, 0)] }) :=
  addFunction_idempotent
    { table := [], tableMaximum := none, freeTableIndexes := [],
      functionsInTableMap := none }
    (Func.wasm 7) ['v'] (by rfl) 0 _ (by rfl)

theorem getD_set_ne (l : List (Option Func)) (i j : Nat) (a : Option Func)
    (h : j ≠ i) : (l.set i a).getD j none = l.getD j none := by
  rw [List.getD_eq_getD_get?, List.getD_eq_getD_get?, List.get?_eq_getElem?,
    List.get?_eq_getElem?, List.getElem?_set_ne (Ne.symm h)]

theorem getD_append_grow (t : List (Option Func)) (i : Nat) (h : i ≠ t.length) :
    (t ++ [(none : Option Func)]).getD i none = t.getD i none := by
  rcases Nat.lt_or_ge i t.length with hlt | hge
  · exact List.getD_append t [none] none i hlt
  · have h2 : t.length < i := by omega
    rw [List.getD_eq_default _ _ (by simp; omega),
      List.getD_eq_default _ _ (by omega)]

theorem getEmptyTableSlot_ok (st : St) (ret : Nat) (st1 : St)
    (h : getEmptyTableSlot st = Except.ok (ret, st1)) :
    st1.table = st.table ∨
      (st1.table = st.table ++ [none] ∧ ret = st.table.length) := by
  rw [getEmptyTableSlot] at h
  split at h
  next k hk =>
    rw [Except.ok.injEq, Prod.mk.injEq] at h
    obtain ⟨h1, h2⟩ := h
    left
    rw [← h2]
  next hk =>
    split at h
    · rw [Except.ok.injEq, Prod.mk.injEq] at h
      obtain ⟨h1, h2⟩ := h
      refine Or.inr ⟨by rw [← h2], ?_⟩
      rw [← h1]
      simp
    · simp at h

theorem setWasmTableEntry_ok (st : St) (i : Nat) (f : Func) (st2 : St)
    (h : setWasmTableEntry st i f = Except.ok st2) :
    st2.table = st.table.set i (some f) := by
  cases f with
  | js n => simp [setWasmTableEntry] at h
  | wasm n =>
    simp only [setWasmTableEntry, Except.ok.injEq] at h
    rw [← h]
  | wrapped g s =>
    simp only [setWasmTableEntry, Except.ok.injEq] at h
    rw [← h]

theorem table_frame_core (st : St) (tbl : List (Option Func)) (ret : Nat)
    (hgrow : tbl = st.table ∨ (tbl = st.table ++ [none] ∧ ret = st.table.length))
    (v : Func) (i : Nat) (hne : i ≠ ret) :
    (tbl.set ret (some v)).getD i none = st.table.getD i none := by
  rcases hgrow with h1 | ⟨h1, h2⟩
  · rw [h1, getD_set_ne _ _ _ _ hne]
  · rw [h1, getD_set_ne _ _ _ _ hne, getD_append_grow st.table i (h2 ▸ hne)]

/-- C10: a successful `addFunction(f, sig)` changes no table entry at
an index other than the returned slot (the lazy first-use scan only
reads the table), and when `f` is already recorded in the effective
registry the table is not changed at all. -/
theorem addFunction_frame (st : St) (f : Func) (sig : Option (List Char))
    (r : Nat) (st' : St) (h : addFunction st f sig = (Except.ok r, st')) :
    (∀ i, i ≠ r → getWasmTableEntry st' i = getWasmTableEntry st i) ∧
    (∀ r₀, mapGet (effectiveMap st) f = some r₀ → st'.table = st.table) := by
  simp only [addFunction] at h
  split at h
  next r0 hg =>
    rw [Prod.mk.injEq, Except.ok.injEq] at h
    obtain ⟨hr, hst⟩ := h
    have ht : st'.table = st.table := by rw [← hst]
    exact ⟨fun i _ => by rw [getWasmTableEntry, getWasmTableEntry, ht],
      fun r₀ _ => ht⟩
  next hg =>
    have hvac : ∀ r₀, mapGet (effectiveMap st) f = some r₀ → st'.table = st.table := by
      intro r₀ hr₀
      rw [hg] at hr₀
      exact absurd hr₀ (by simp)
    refine ⟨?_, hvac⟩
    split at h
    next => simp at h
    next =>
      rename_i hslot
      have hgr := getEmptyTableSlot_ok _ _ _ hslot
      simp only at hgr
      split at h
      next =>
        rename_i st2 hset
        have hs2 := setWasmTableEntry_ok _ _ _ _ hset
        simp only at hs2
        rw [Prod.mk.injEq, Except.ok.injEq] at h
        obtain ⟨hr, hst⟩ := h
        subst hr
        intro i hne
        have ht : st'.table = st2.table := by rw [← hst]
        rw [getWasmTableEntry, getWasmTableEntry, ht, hs2]
        exact table_frame_core st _ _ hgr _ i hne
      next =>
        split at h
        next => simp at h
        next =>
          split at h
          next => simp at h
          next =>
            split at h
            next =>
              rename_i st2 hset2
              have hs2 := setWasmTableEntry_ok _ _ _ _ hset2
              simp only at hs2
              rw [Prod.mk.injEq, Except.ok.injEq] at h
              obtain ⟨hr, hst⟩ := h
              subst hr
              intro i hne
              have ht : st'.table = st2.table := by rw [← hst]
              rw [getWasmTableEntry, getWasmTableEntry, ht, hs2]
              exact table_frame_core st _ _ hgr _ i hne
            next => simp at h
      next => simp at h

/-- Witness for C10: registering the previously-unseen `Func.wasm 5`
in the empty state returns slot 0 and the frame property holds. -/
theorem addFunction_frame_witness :
    (∀ i, i ≠ 0 →
      getWasmTableEntry
        { table := [some (Func.wasm 5)], tableMaximum := none,
          freeTableIndexes := [], functionsInTableMap := some [(Func.wasm 5, 0)] } i =
      getWasmTableEntry
        { table := [], tableMaximum := none, freeTableIndexes := [],
          functionsInTableMap := none } i) ∧
    (∀ r₀, mapGet (effectiveMap
        { table := [], tableMaximum := none, freeTableIndexes := [],
          functionsInTableMap := none }) (Func.wasm 5) = some r₀ →
      ({ table := [some (Func.wasm 5)], tableMaximum := none,
         freeTableIndexes := [], functionsInTableMap := some [(Func.wasm 5, 0)] } : St).table =
      ({ table := [], tableMaximum := none, freeTableIndexes := [],
         functionsInTableMap := none } : St).table) :=
  addFunction_frame
    { table := [], tableMaximum := none, freeTableIndexes := [],
      functionsInTableMap := none }
    (Func.wasm 5) none 0 _ (by rfl)

/-- C3: starting from an empty, growable table and empty FreeList,
registering two distinct fresh wasm functions yields the strictly
increasing slots 0 and 1; after `removeFunction 0`, registering a
third fresh function returns slot 0 from the FreeList and the table
does not grow (its length stays 2). -/
theorem addFunction_slot_reuse (a b c : Nat)
    (hab : a ≠ b) (hac : a ≠ c) (hbc : b ≠ c) :
    addFunction
        { table := [], tableMaximum := none, freeTableIndexes := [],
          functionsInTableMap := none } (Func.wasm a) none =
      (Except.ok 0,
       { table := [some (Func.wasm a)], tableMaximum := none,
         freeTableIndexes := [], functionsInTableMap := some [(Func.wasm a, 0)] }) ∧
    addFunction
        { table := [some (Func.wasm a)], tableMaximum := none,
          freeTableIndexes := [], functionsInTableMap := some [(Func.wasm a, 0)] }
        (Func.wasm b) none =
      (Except.ok 1,
       { table := [some (Func.wasm a), some (Func.wasm b)], tableMaximum := none,
         freeTableIndexes := [],
         functionsInTableMap := some [(Func.wasm a, 0), (Func.wasm b, 1)] }) ∧
    removeFunction
        { table := [some (Func.wasm a), some (Func.wasm b)], tableMaximum := none,
          freeTableIndexes := [],
          functionsInTableMap := some [(Func.wasm a, 0), (Func.wasm b, 1)] } 0 =
      Except.ok
        { table := [some (Func.wasm a), some (Func.wasm b)], tableMaximum := none,
          freeTableIndexes := [0],
          functionsInTableMap := some [(Func.wasm b, 1)] } ∧
    addFunction
        { table := [some (Func.wasm a), some (Func.wasm b)], tableMaximum := none,
          freeTableIndexes := [0],
          functionsInTableMap := some [(Func.wasm b, 1)] }
        (Func.wasm c) none =
      (Except.ok 0,
       { table := [some (Func.wasm c), some (Func.wasm b)], tableMaximum := none,
         freeTableIndexes := [],
         functionsInTableMap := some [(Func.wasm b, 1), (Func.wasm c, 0)] }) ∧
    ([some (Func.wasm c), some (Func.wasm b)] : List (Option Func)).length =
      ([some (Func.wasm a), some (Func.wasm b)] : List (Option Func)).length := by
  refine ⟨rfl, ?_, ?_, ?_, rfl⟩
  · simp [addFunction, effectiveMap, getEmptyTableSlot, growOk, setWasmTableEntry,
      mapGet, mapSet, hab]
  · simp [removeFunction, getWasmTableEntry, mapDelete]
  · simp [addFunction, effectiveMap, getEmptyTableSlot, growOk, setWasmTableEntry,
      mapGet, mapSet, hbc, Ne.symm hbc]

/-- Witness for C3 at the concrete identities 1, 2, 3. -/
theorem addFunction_slot_reuse_witness :
    addFunction
        { table := [], tableMaximum := none, freeTableIndexes := [],
          functionsInTableMap := none } (Func.wasm 1) none =
      (Except.ok 0,
       { table := [some (Func.wasm 1)], tableMaximum := none,
         freeTableIndexes := [], functionsInTableMap := some [(Func.wasm 1, 0)] }) ∧
    addFunction
        { table := [some (Func.wasm 1)], tableMaximum := none,
          freeTableIndexes := [], functionsInTableMap := some [(Func.wasm 1, 0)] }
        (Func.wasm 2) none =
      (Except.ok 1,
       { table := [some (Func.wasm 1), some (Func.wasm 2)], tableMaximum := none,
         freeTableIndexes := [],
         functionsInTableMap := some [(Func.wasm 1, 0), (Func.wasm 2, 1)] }) ∧
    removeFunction
        { table := [some (Func.wasm 1), some (Func.wasm 2)], tableMaximum := none,
          freeTableIndexes := [],
          functionsInTableMap := some [(Func.wasm 1, 0), (Func.wasm 2, 1)] } 0 =
      Except.ok
        { table := [some (Func.wasm 1), some (Func.wasm 2)], tableMaximum := none,
          freeTableIndexes := [0],
          functionsInTableMap := some [(Func.wasm 2, 1)] } ∧
    addFunction
        { table := [some (Func.wasm 1), some (Func.wasm 2)], tableMaximum := none,
          freeTableIndexes := [0],
          functionsInTableMap := some [(Func.wasm 2, 1)] }
        (Func.wasm 3) none =
      (Except.ok 0,
       { table := [some (Func.wasm 3), some (Func.wasm 2)], tableMaximum := none,
         freeTableIndexes := [],
         functionsInTableMap := some [(Func.wasm 2, 1), (Func.wasm 3, 0)] }) ∧
    ([some (Func.wasm 3), some (Func.wasm 2)] : List (Option Func)).length =
      ([some (Func.wasm 1), some (Func.wasm 2)] : List (Option Func)).length :=
  addFunction_slot_reuse 1 2 3 (by decide) (by decide) (by decide)
